import Mathlib

/-!
Verification development for the discoveryjs/cli streaming JSON encoder
(`JsonStringifyStream`, a fork of json-stream-stringify) and the HTML
compressed-data printer (`createHtmlCompressedDataPrinter`), both shallowly
embedded from `src/lib/shared/html-compressed-data-printer.js`.

Modelling conventions:
* JS values are modelled by the inductive `JsValue`.  JS numbers are modelled
  as integers (`num`) plus a non-finite marker (`nonfinite`); functions and
  symbols are opaque markers; a value carrying a `toJSON` method is modelled by
  the `toJsonVal` wrapper whose payload is what `toJSON()` returns; a thenable
  is `promiseOk`/`promiseErr` carrying its eventual settlement; a readable
  stream is `readableV` carrying its attachment-time flags and a script of
  `read()` results (`none` = `read()` returned `null` at that attempt, an
  exhausted script keeps returning `none`).
* Strings are modelled at the Basic-Multilingual-Plane level: one `Char` is
  one UTF-16 code unit (so JS `String.prototype.length`/`slice` coincide with
  `String.length`/take/drop), while the byte buffer works on UTF-8 bytes.
* The machine state carries the byte staging buffer (`bufContent`, capacity
  `bufCap`), the chunks handed to the consumer (`pulled`), and the error
  signals emitted on the stream's error channel (`errors`).
-/

inductive JsValue where
  | str : String → JsValue
  | num : Int → JsValue
  | nonfinite : JsValue
  | boolV : Bool → JsValue
  | nullV : JsValue
  | undef : JsValue
  | funcV : JsValue
  | symV : JsValue
  | arr : List JsValue → JsValue
  | obj : List (String × JsValue) → JsValue
  | toJsonVal : JsValue → JsValue
  | promiseOk : JsValue → JsValue
  | promiseErr : String → JsValue
  | readableV : (objectMode : Bool) → (readableEnded : Bool) → (readableFlowing : Bool) →
      (readable : Bool) → (readableLength : Nat) → (script : List (Option JsValue)) → JsValue
  deriving Repr

mutual

/-- Structural equality test on modelled JS values; it plays the part of the
reference identity used by the `WeakSet` cycle guard (see the comments on
`State.visited`). -/
def JsValue.beq (a b : JsValue) : Bool :=
  match a, b with
  | .str a, .str b => a == b
  | .num a, .num b => a == b
  | .nonfinite, .nonfinite => true
  | .boolV a, .boolV b => a == b
  | .nullV, .nullV => true
  | .undef, .undef => true
  | .funcV, .funcV => true
  | .symV, .symV => true
  | .arr a, .arr b => JsValue.beqL a b
  | .obj a, .obj b => JsValue.beqF a b
  | .toJsonVal a, .toJsonVal b => JsValue.beq a b
  | .promiseOk a, .promiseOk b => JsValue.beq a b
  | .promiseErr a, .promiseErr b => a == b
  | .readableV a1 a2 a3 a4 a5 s1, .readableV b1 b2 b3 b4 b5 s2 =>
      a1 == b1 && a2 == b2 && a3 == b3 && a4 == b4 && a5 == b5 && JsValue.beqO s1 s2
  | _, _ => false
termination_by structural a

def JsValue.beqL (as bs : List JsValue) : Bool :=
  match as, bs with
  | [], [] => true
  | a :: as, b :: bs => JsValue.beq a b && JsValue.beqL as bs
  | _, _ => false
termination_by structural as

def JsValue.beqF (as bs : List (String × JsValue)) : Bool :=
  match as, bs with
  | [], [] => true
  | (k1, v1) :: as, (k2, v2) :: bs => k1 == k2 && JsValue.beq v1 v2 && JsValue.beqF as bs
  | _, _ => false
termination_by structural as

def JsValue.beqO (as bs : List (Option JsValue)) : Bool :=
  match as, bs with
  | [], [] => true
  | none :: as, none :: bs => JsValue.beqO as bs
  | some a :: as, some b :: bs => JsValue.beq a b && JsValue.beqO as bs
  | _, _ => false
termination_by structural as

end

instance : BEq JsValue := ⟨JsValue.beq⟩

/-- The type tags of `getType` (source lines 52-57). -/
inductive JsType where
  | PrimitiveType | PromiseType | ArrayType | ObjectType
  | ReadableStringType | ReadableObjectType
  deriving DecidableEq, Repr

/-- `getType` (source lines 68-86): a non-null object is classified as a
thenable, a readable stream (object or string mode), an array, or a plain
object; everything else (including functions and symbols) is a primitive. -/
def getType : JsValue → JsType
  | .promiseOk _ => .PromiseType
  | .promiseErr _ => .PromiseType
  | .readableV om _ _ _ _ _ => if om then .ReadableObjectType else .ReadableStringType
  | .arr _ => .ArrayType
  | .obj _ => .ObjectType
  | .toJsonVal _ => .ObjectType
  | _ => .PrimitiveType

def hexDigit (n : Nat) : String :=
  String.singleton (if n < 10 then Char.ofNat (48 + n) else Char.ofNat (87 + n))

/-- JSON string-character escaping as performed by `JSON.stringify`. -/
def escCharJson (c : Char) : String :=
  if c = '"' then "\\\""
  else if c = '\\' then "\\\\"
  else if c = '\n' then "\\n"
  else if c = '\r' then "\\r"
  else if c = '\t' then "\\t"
  else if c = '\x08' then "\\b"
  else if c = '\x0c' then "\\f"
  else if c.toNat < 32 then "\\u00" ++ hexDigit (c.toNat / 16) ++ hexDigit (c.toNat % 16)
  else String.singleton c

/-- `quoteString` (source lines 88-90): `JSON.stringify` applied to a string. -/
def quoteString (s : String) : String :=
  "\"" ++ String.join (s.data.map escCharJson) ++ "\""

/-- `primitiveToString` (source lines 92-112).  `none` models the defensive
`throw` in the `default` branch (function/symbol typed values, which
`processValue` has already coerced away, and composite values, which never
reach this function). -/
def primitiveToString : JsValue → Option String
  | .str s => some (quoteString s)
  | .num n => some (toString n)
  | .nonfinite => some "null"
  | .boolV b => some (cond b "true" "false")
  | .nullV => some "null"
  | .undef => some "null"
  | _ => none

/-- String repetition, `String.prototype.repeat`. -/
def strRepeat (s : String) (n : Nat) : String :=
  match n with
  | 0 => ""
  | n + 1 => s ++ strRepeat s n

/-- The raw `space` argument of the stream constructor. -/
inductive SpaceInput where
  | numSp : Int → SpaceInput
  | nonfiniteSp : SpaceInput
  | strSp : String → SpaceInput
  | otherSp : SpaceInput
  deriving DecidableEq, Repr

/-- `normalizeSpace` (source lines 223-237): a finite number below 1 or a
non-finite number disables indentation; otherwise at most 10 spaces; a string
is cut to 10 characters, the empty string disabling indentation. -/
def normalizeSpace : SpaceInput → Option String
  | .numSp n => if n < 1 then none else some (strRepeat " " (min n 10).toNat)
  | .nonfiniteSp => none
  | .strSp s => if s.take 10 = "" then none else some (s.take 10)
  | .otherSp => none

/-- The raw `replacer` argument of the stream constructor: a key/value
transform function, an allow-list of keys, or anything else (ignored). -/
inductive ReplacerInput where
  | fn : (String → JsValue → JsValue) → ReplacerInput
  | allowList : List JsValue → ReplacerInput
  | nullRep : ReplacerInput

/-- `normalizeReplacer` (source lines 204-221): an array replacer becomes a
whitelist of its string/number entries (stringified) with `''` always
included; everything but a function or array replacer is dropped. -/
def normalizeReplacer : ReplacerInput → Option (String → JsValue → JsValue)
  | .fn f => some f
  | .allowList items =>
      let whitelist := "" :: items.filterMap (fun it =>
        match it with
        | .str s => some s
        | .num n => some (toString n)
        | _ => none)
      some (fun key value => if whitelist.contains key then value else .undef)
  | .nullRep => none

/-- UTF-8 encoding of a single character (scalar value). -/
def utf8Bytes (c : Char) : List Nat :=
  let n := c.toNat
  if n < 0x80 then [n]
  else if n < 0x800 then [0xc0 + n / 64, 0x80 + n % 64]
  else if n < 0x10000 then [0xe0 + n / 4096, 0x80 + n / 64 % 64, 0x80 + n % 64]
  else [0xf0 + n / 262144, 0x80 + n / 4096 % 64, 0x80 + n / 64 % 64, 0x80 + n % 64]

/-- UTF-8 bytes of a whole string. -/
def strBytes (s : String) : List Nat :=
  (s.data.map utf8Bytes).flatten

/-- `Buffer.prototype.write` semantics: encode characters into at most
`avail` bytes, stopping before the first character that does not fit
completely (partially encoded characters are not written). -/
def bufWrite (avail : Nat) : List Char → List Nat
  | [] => []
  | c :: cs =>
      let bs := utf8Bytes c
      if bs.length ≤ avail then bs ++ bufWrite (avail - bs.length) cs
      else []

/-- The three callbacks passed to `processValue` (`noop`,
`processObjectEntry`, `processArrayItem`); the source compares them by
function identity (`callback !== processObjectEntry`). -/
inductive Callback where
  | noopCb | objEntry | arrItem
  deriving DecidableEq, Repr

/-- A traversal stack frame (the source's heterogeneous handler records):
* `rootF` — the synthetic constructor frame (source lines 258-263);
* `lit` — a `{handler: push, value}` literal-injection frame (closing
  brackets and split remainders);
* `objF` — a `processObject` frame with the object's fields, the snapshot of
  its keys, the cursor `index` and the `firstEntry` flag;
* `arrF` — a `processArray` frame with the array items and cursor;
* `promiseF` — the awaiting placeholder pushed for a thenable, remembering
  the key, the settlement and the callback captured by the continuation;
* `readF` — a readable-stream frame (`objectMode` selects the handler), with
  the remaining script of `read()` results, `index`, `firstRead`, `awaiting`. -/
inductive Frame where
  | rootF : JsValue → Frame
  | lit : String → Frame
  | objF : (fields : List (String × JsValue)) → (keys : List String) →
      (index : Nat) → (firstEntry : Bool) → Frame
  | arrF : (items : List JsValue) → (index : Nat) → Frame
  | promiseF : (key : String) → (outcome : Except String JsValue) → (cb : Callback) → Frame
  | readF : (objectMode : Bool) → (script : List (Option JsValue)) →
      (index : Nat) → (firstRead : Bool) → (awaiting : Bool) → Frame
  deriving Repr

/-- `frame.awaiting` as read by the driver loop: the promise placeholder is
pushed with `awaiting: true`; a stream frame carries its flag; every other
frame kind has no `awaiting` property (falsy). -/
def Frame.isAwaiting : Frame → Bool
  | .promiseF _ _ _ => true
  | .readF _ _ _ _ aw => aw
  | _ => false

/-- The per-instance configuration fixed by the constructor:
`this.replacer = normalizeReplacer(replacer)` and
`this.space = normalizeSpace(space)`. -/
structure Config where
  replacer : Option (String → JsValue → JsValue)
  space : Option String

/-- The mutable state of a `JsonStringifyStream` instance.  `bufContent` is
the written prefix of the staging `Buffer` (so `_bufferOffset` is
`bufContent.length`) and `bufCap` its allocated byte size; `pulled` collects
the chunks handed to the consumer via `super.push`; `errors` collects the
errors emitted on the stream's error channel by `abort`. -/
structure State where
  depth : Nat
  error : Option String
  processing : Bool
  ended : Bool
  readSize : Nat
  bufCap : Nat
  bufContent : List Nat
  stack : List Frame
  visited : List JsValue
  pulled : List (List Nat)
  errors : List String

/-- `pushStack` (source lines 424-427). -/
def pushStack (s : State) (f : Frame) : State :=
  { s with stack := f :: s.stack }

/-- `popStack` (source lines 429-438): frames whose handler is
`processObject`, `processArray` or `processReadableObject` remove their value
from the cycle-guard set and decrement the depth.  (For a
`processReadableObject` frame the `WeakSet.delete` is a no-op since streams
are never inserted, so only the depth decrement is visible.) -/
def popStack (s : State) : State :=
  match s.stack with
  | [] => s
  | f :: rest =>
      match f with
      | .objF fields _ _ _ =>
          { s with stack := rest, visited := s.visited.erase (.obj fields),
                   depth := s.depth - 1 }
      | .arrF items _ =>
          { s with stack := rest, visited := s.visited.erase (.arr items),
                   depth := s.depth - 1 }
      | .readF true _ _ _ _ =>
          { s with stack := rest, depth := s.depth - 1 }
      | _ => { s with stack := rest }

/-- `abort` (source lines 411-422) together with its `process.nextTick`
effects, modelled synchronously: the terminal error slot is set, the stack and
the staging buffer are dropped (buffered-but-unflushed bytes are never handed
to the consumer), the error is emitted on the error channel and the stream is
ended. -/
def abort (s : State) (e : String) : State :=
  { s with error := some e, stack := [], processing := false, ended := true,
           bufContent := [], bufCap := 0, errors := s.errors ++ [e] }

/-- `push` (source lines 474-505), the backpressure buffer write.  A string
longer than the logical limit `_bufferOffset + _readSize` (the source compares
JS string length, i.e. characters, against this byte-based limit) is split,
the remainder being pushed back as a literal-injection frame.  The kept part
is written with `Buffer.prototype.write` semantics (`bufWrite`): bytes beyond
the physical capacity are silently dropped.  When the offset reaches
`_readSize` the first `_readSize` bytes are flushed to the consumer, the rest
is shifted down and the reentrancy flag is cleared. -/
def push (s : State) (data : String) : State :=
  let max := s.bufContent.length + s.readSize
  let split := data.length > max
  let s := if split then pushStack s (.lit (data.drop max)) else s
  let data := if split then data.take max else data
  let s := { s with bufContent := s.bufContent ++ bufWrite (s.bufCap - s.bufContent.length) data.data }
  if s.bufContent.length < s.readSize then s
  else
    { s with pulled := s.pulled ++ [s.bufContent.take s.readSize],
             bufContent := s.bufContent.drop s.readSize,
             processing := false }

/-- `value[key]` on a modelled object: the first binding of `key`, or
`undefined` when absent. -/
def jsGet (fields : List (String × JsValue)) (key : String) : JsValue :=
  ((fields.find? (fun kv => kv.1 = key)).map Prod.snd).getD (JsValue.undef)

/-- `Object.keys(value)` for the values the `ObjectType` branch can receive.
A `toJsonVal` wrapper reaching this point (a `toJSON()` result that itself
carries a `toJSON` method, which `processValue` unwraps only once) is modelled
as the typical literal `{toJSON() {...}}` whose single own enumerable key is
`toJSON` with a function value. -/
def objFields : JsValue → List (String × JsValue)
  | .obj fields => fields
  | .toJsonVal _ => [("toJSON", .funcV)]
  | _ => []

/-- `processObjectEntry` (source lines 119-133): clear the top frame's
`firstEntry` flag or emit the separating comma, then emit the (indented)
quoted key and colon. -/
def processObjectEntry (cfg : Config) (s : State) (key : String) : State :=
  let first :=
    match s.stack with
    | .objF _ _ _ fe :: _ => fe
    | _ => false
  let s :=
    match s.stack with
    | .objF fs ks i true :: rest => { s with stack := .objF fs ks i false :: rest }
    | _ => s
  let s := if first then s else push s ","
  match cfg.space with
  | some sp => push s ("\n" ++ strRepeat sp s.depth ++ quoteString key ++ ": ")
  | none => push s (quoteString key ++ ":")

/-- `processArrayItem` (source lines 154-162): a separating comma for every
index but `"0"`, then the indentation prefix when pretty-printing. -/
def processArrayItem (cfg : Config) (s : State) (index : String) : State :=
  let s := if index ≠ "0" then push s "," else s
  match cfg.space with
  | some sp => push s ("\n" ++ strRepeat sp s.depth)
  | none => s

/-- `callback.call(this, key)` for the three callbacks `processValue` is
given. -/
def runCallback (cfg : Config) (s : State) (key : String) : Callback → State
  | .noopCb => s
  | .objEntry => processObjectEntry cfg s key
  | .arrItem => processArrayItem cfg s key

/-- The settlement a thenable's continuation will observe
(`Promise.resolve(value).then(...).catch(...)`). -/
def promiseOutcome : JsValue → Except String JsValue
  | .promiseOk v => .ok v
  | .promiseErr e => .error e
  | v => .ok v

/-- The value pipeline at the head of `processValue` (source lines 267-277):
apply the `toJSON` hook once, then the replacer, then coerce function- and
symbol-typed values to `undefined`. -/
def effectiveValue (cfg : Config) (key : String) (value0 : JsValue) : JsValue :=
  let v1 := match value0 with | .toJsonVal inner => inner | v => v
  let value := match cfg.replacer with | some f => f key v1 | none => v1
  match value with | .funcV => .undef | .symV => .undef | v => v

/-- `processValue` (source lines 266-409).  The value is piped through the
`toJSON` hook (applied once) and the replacer, functions and symbols are
coerced to `undefined`, and the result is dispatched on `getType`:
* primitive — unless an `undefined` value sits in an object's value position
  (key and value both omitted), run the callback and push the literal; the
  unreachable `primitiveToString` throw is modelled as the abort that the
  driver's `catch` would perform;
* thenable — push the awaiting placeholder frame (the continuation is fired
  by `settleStep`/`Event.wake`);
* object/array — run the callback, abort on cycle-guard reentry, otherwise
  insert into the guard, special-case emptiness, push the closer literal and
  the traversal frame and increase the depth;
* readable stream — run the callback, abort if the source already ended or is
  flowing, otherwise (object mode) open a bracket with its closer, and push a
  stream frame whose initial `awaiting` is `!value.readable ||
  value.readableLength === 0`. -/
def processValue (cfg : Config) (s : State) (key : String) (value0 : JsValue)
    (callback : Callback) : State :=
  let value := effectiveValue cfg key value0
  match getType value with
  | .PrimitiveType =>
      if callback != Callback.objEntry || !(value == JsValue.undef) then
        let s := runCallback cfg s key callback
        match primitiveToString value with
        | some lit => push s lit
        | none => abort s "Unknown type. Please file an issue!"
      else s
  | .PromiseType =>
      pushStack s (.promiseF key (promiseOutcome value) callback)
  | .ObjectType =>
      let s := runCallback cfg s key callback
      if s.visited.contains value then
        abort s "Converting circular structure to JSON"
      else
        let s := { s with visited := value :: s.visited }
        let fields := objFields value
        let keys := fields.map Prod.fst
        if keys.isEmpty then push s "\x7b\x7d"
        else
          let s := push s "\x7b"
          let s := pushStack s (.lit "\x7d")
          let s := pushStack s (.objF fields keys 0 true)
          { s with depth := s.depth + 1 }
  | .ArrayType =>
      let s := runCallback cfg s key callback
      if s.visited.contains value then
        abort s "Converting circular structure to JSON"
      else
        let s := { s with visited := value :: s.visited }
        match value with
        | .arr items =>
            if items.isEmpty then push s "[]"
            else
              let s := push s "["
              let s := pushStack s (.lit (match cfg.space with
                | some sp => "\n" ++ strRepeat sp s.depth ++ "]"
                | none => "]"))
              let s := pushStack s (.arrF items 0)
              { s with depth := s.depth + 1 }
        | _ => s
  | .ReadableStringType =>
      let s := runCallback cfg s key callback
      match value with
      | .readableV _ rEnded rFlowing rReadable rLen script =>
          if rEnded then
            abort s "Readable Stream has ended before it was serialized. All stream data have been lost"
          else if rFlowing then
            abort s "Readable Stream is in flowing mode, data may have been lost. Trying to pause stream."
          else
            pushStack s (.readF false script 0 true (!rReadable || rLen == 0))
      | _ => s
  | .ReadableObjectType =>
      let s := runCallback cfg s key callback
      match value with
      | .readableV _ rEnded rFlowing rReadable rLen script =>
          if rEnded then
            abort s "Readable Stream has ended before it was serialized. All stream data have been lost"
          else if rFlowing then
            abort s "Readable Stream is in flowing mode, data may have been lost. Trying to pause stream."
          else
            let s := push s "["
            let s := pushStack s (.lit (match cfg.space with
              | some sp => "\n" ++ strRepeat sp s.depth ++ "]"
              | none => "]"))
            let s := { s with depth := s.depth + 1 }
            pushStack s (.readF true script 0 true (!rReadable || rLen == 0))
      | _ => s

/-- `processObject` (source lines 135-152): at the end of the key snapshot,
emit the closing indentation (when pretty-printing a non-empty object) and
pop; otherwise process the entry at the cursor and advance it.  The source
increments `current.index` after `processValue` returns; since `processValue`
neither reads nor moves this frame, the increment is performed before the
call, on the same frame, with the key taken at the original cursor. -/
def processObject (cfg : Config) (s : State) : State :=
  match s.stack with
  | .objF fields keys index firstEntry :: rest =>
      if index = keys.length then
        let s :=
          match cfg.space with
          | some sp => if ¬firstEntry then push s ("\n" ++ strRepeat sp (s.depth - 1)) else s
          | none => s
        popStack s
      else
        let key := keys.getD index ""
        let s := { s with stack := .objF fields keys (index + 1) firstEntry :: rest }
        processValue cfg s key (jsGet fields key) .objEntry
  | _ => s

/-- `processArray` (source lines 164-174); the cursor increment is performed
before the `processValue` call exactly as in `processObject`. -/
def processArray (cfg : Config) (s : State) : State :=
  match s.stack with
  | .arrF items index :: rest =>
      if index = items.length then popStack s
      else
        let s := { s with stack := .arrF items (index + 1) :: rest }
        processValue cfg s (toString index) (items.getD index .undef) .arrItem
  | _ => s

/-- A unit pulled from a modelled stream: consuming the script's head; a
leading `none` is a `read()` that returned `null`, and an exhausted script
keeps returning `null` (the stream has ended). -/
def scriptRead : List (Option JsValue) → Option JsValue × List (Option JsValue)
  | [] => (none, [])
  | r :: rest => (r, rest)

/-- `createStreamReader` (source lines 176-193): read one unit; on data clear
`firstRead` and hand the unit to `fn`; on `null` pop the frame when
`firstRead` is set, otherwise set `firstRead` and suspend the frame
(`awaiting`). -/
def createStreamReader (fn : Config → State → JsValue → State) (cfg : Config)
    (s : State) : State :=
  match s.stack with
  | .readF om script index fr aw :: rest =>
      match scriptRead script with
      | (some data, script) =>
          let s := { s with stack := .readF om script index false aw :: rest }
          fn cfg s data
      | (none, script) =>
          if fr then popStack s
          else { s with stack := .readF om script index true true :: rest }
  | _ => s

/-- The unit handler of `processReadableObject` (source lines 195-198): each
pulled unit is re-encoded as the next array element, advancing the cursor
(increment performed before the `processValue` call, as in `processObject`). -/
def processReadableObjectFn (cfg : Config) (s : State) (data : JsValue) : State :=
  match s.stack with
  | .readF om script index fr aw :: rest =>
      let s := { s with stack := .readF om script (index + 1) fr aw :: rest }
      processValue cfg s (toString index) data .arrItem
  | _ => s

def processReadableObject : Config → State → State :=
  createStreamReader processReadableObjectFn

/-- The text of a byte/text producer's unit (`this.push(data)` in
`processReadableString`); units of such streams are modelled as `str`
values. -/
def chunkText : JsValue → String
  | .str s => s
  | _ => ""

/-- The unit handler of `processReadableString` (source lines 200-202): the
pulled unit is spliced directly into the output. -/
def processReadableStringFn (_cfg : Config) (s : State) (data : JsValue) : State :=
  push s (chunkText data)

def processReadableString : Config → State → State :=
  createStreamReader processReadableStringFn

/-- `this._stack.handler.call(this, size)`: dispatch on the top frame's
handler.  The `rootF` handler is the constructor's closure (pop, then process
the root value under key `''` with `noop`); a `lit` frame's handler is `push`
(`this.push(this._stack.value); this.popStack();` — note that when the inner
`push` splits the literal, `popStack` removes the freshly pushed remainder
frame, exactly as the source does); a promise placeholder's handler is `noop`.
The `size` argument is consumed only by `read(size)`, which the script-based
stream model ignores. -/
def runHandler (cfg : Config) (s : State) : State :=
  match s.stack with
  | [] => s
  | .rootF v :: _ => processValue cfg (popStack s) "" v .noopCb
  | .lit text :: _ =>
      let s := push s text
      popStack s
  | .objF _ _ _ _ :: _ => processObject cfg s
  | .arrF _ _ :: _ => processArray cfg s
  | .promiseF _ _ _ :: _ => s
  | .readF om _ _ _ _ :: _ =>
      if om then processReadableObject cfg s else processReadableString cfg s

/-- The tail of `processStack` (source lines 462-471): when the stack has
emptied and the stream has not yet ended, mark it ended, flush the remaining
buffered bytes, signal end-of-stream (`push(null)`) and drop the buffer. -/
def endCheck (s : State) : State :=
  if s.stack.isEmpty && !s.ended then
    let s := { s with ended := true }
    let s :=
      if s.bufContent.length > 0 then
        { s with pulled := s.pulled ++ [s.bufContent], bufContent := [] }
      else s
    { s with bufCap := 0 }
  else s

/-- The `while` loop of `processStack` (source lines 448-454) with explicit
fuel: run the top frame's handler while the stack is non-empty and the top is
not awaiting; when a handler clears `_processing` (a buffer flush or an
abort), return immediately without the end-of-stack check; on normal exit
clear `_processing` and run the end-of-stack check. -/
def psLoop (cfg : Config) : Nat → State → State
  | 0, s => s
  | fuel + 1, s =>
      match s.stack with
      | [] => endCheck { s with processing := false }
      | f :: _ =>
          if f.isAwaiting then endCheck { s with processing := false }
          else
            let s := runHandler cfg s
            if s.processing then psLoop cfg fuel s else s

/-- `processStack` (source lines 440-472): no-op under the reentrancy guard
or after the stream has ended; otherwise set the guard and run the loop.
(The `try/catch` is not modelled: every modelled handler is total, the only
throwing site being `primitiveToString`'s defensive default branch, which
`processValue` models as a direct abort.) -/
def processStack (cfg : Config) (fuel : Nat) (s : State) : State :=
  if s.processing || s.ended then s
  else psLoop cfg fuel { s with processing := true }

/-- `readableHighWaterMark` of a stream built with default options. -/
def defaultHighWaterMark : Nat := 16384

/-- `_read` (source lines 507-527): ignore pulls after the end, record the
requested size (`size || readableHighWaterMark`), grow the staging buffer to
twice the requested size when needed (preserving its written prefix), and
drive the stack. -/
def readPull (cfg : Config) (fuel : Nat) (size : Nat) (s : State) : State :=
  if s.ended then s
  else
    let s := { s with readSize := if size = 0 then defaultHighWaterMark else size }
    let s :=
      if s.bufCap < 2 * s.readSize then { s with bufCap := 2 * s.readSize }
      else s
    processStack cfg fuel s

/-- The single asynchronous notification the top awaiting frame is waiting
for, without the driver run it triggers (that run is the following `step`s):
a thenable settles (`.then` pops the placeholder and re-processes the
resolved value under the captured key and callback; `.catch` aborts with the
rejection error), or a stream signals `readable`/`end` (`continueProcessing`
clears `awaiting`). -/
def settleStep (cfg : Config) (s : State) : State :=
  match s.stack with
  | .promiseF key (.ok v) cb :: _ => processValue cfg (popStack s) key v cb
  | .promiseF _ (.error e) _ :: _ => abort s e
  | .readF om script index fr true :: rest =>
      { s with stack := .readF om script index fr false :: rest }
  | _ => s

/-- One scheduler step of the encoder run: after the end nothing happens; an
empty stack ends the stream; an awaiting top frame receives its notification;
otherwise the top frame's handler runs.  This is the source's driver loop
decomposed into single handler executions (the reentrancy flag is a no-op at
this granularity). -/
def step (cfg : Config) (s : State) : State :=
  if s.ended then s
  else
    match s.stack with
    | [] => endCheck s
    | f :: _ => if f.isAwaiting then settleStep cfg s else runHandler cfg s

/-- Iterated scheduler steps. -/
def stepRun (cfg : Config) (n : Nat) (s : State) : State :=
  Nat.iterate (step cfg) n s

/-- An external event driving the encoder: a consumer pull (`_read(size)`),
or the wake-up notification of the top awaiting frame followed by the driver
run the notification triggers (`continueProcessing` / the thenable's
continuation, both of which end in `processStack()`). -/
inductive Event where
  | pull : Nat → Event
  | wake : Event
  deriving DecidableEq, Repr

def applyEvent (cfg : Config) (fuel : Nat) : Event → State → State
  | .pull size, s => readPull cfg fuel size s
  | .wake, s =>
      match s.stack with
      | .promiseF key (.ok v) cb :: _ =>
          processStack cfg fuel (processValue cfg (popStack s) key v cb)
      | .promiseF _ (.error e) _ :: _ => abort s e
      | .readF om script index fr true :: rest =>
          processStack cfg fuel { s with stack := .readF om script index fr false :: rest }
      | _ => s

/-- Drive the encoder through a sequence of external events. -/
def driveEvents (cfg : Config) (fuel : Nat) (events : List Event) (s : State) : State :=
  events.foldl (fun s ev => applyEvent cfg fuel ev s) s

/-- The state built by the constructor (source lines 240-264): no error, not
processing, not ended, no buffer yet, an empty cycle-guard set, and the
synthetic root frame for the given value. -/
def initState (value : JsValue) : State :=
  { depth := 0, error := none, processing := false, ended := false,
    readSize := 0, bufCap := 0, bufContent := [],
    stack := [.rootF value], visited := [],
    pulled := [], errors := [] }

/-- `createJsonStringifyStream(value, replacer, spaces)`. -/
def mkConfig (replacer : ReplacerInput) (space : SpaceInput) : Config :=
  { replacer := normalizeReplacer replacer, space := normalizeSpace space }

mutual

/-- Modelled from the spec: the reference compact serialization ("strict,
spec-conformant JSON text") of a plain (promise/stream-free) value — the
behaviour of the host's `JSON.stringify` with no replacer and no indentation,
used as the yardstick the encoder's output is compared against.  `none`
means the value is omitted entirely. -/
def specStringify : JsValue → Option String
  | .str s => some (quoteString s)
  | .num n => some (toString n)
  | .nonfinite => some "null"
  | .boolV b => some (cond b "true" "false")
  | .nullV => some "null"
  | .undef => none
  | .funcV => none
  | .symV => none
  | .arr items => some ("[" ++ String.intercalate "," (specStringifyItems items) ++ "]")
  | .obj fields =>
      some ("\x7b" ++ String.intercalate "," (specStringifyFields fields) ++ "\x7d")
  | .toJsonVal inner => specStringify inner
  | .promiseOk _ => none
  | .promiseErr _ => none
  | .readableV _ _ _ _ _ _ => none

def specStringifyItems : List JsValue → List String
  | [] => []
  | it :: rest => ((specStringify it).getD "null") :: specStringifyItems rest

def specStringifyFields : List (String × JsValue) → List String
  | [] => []
  | (k, v) :: rest =>
      match specStringify v with
      | some sv => (quoteString k ++ ":" ++ sv) :: specStringifyFields rest
      | none => specStringifyFields rest

end

mutual

/-- Modelled from the spec: the "filtered/transformed input" of the
round-trip property — the value a standard JSON parser should recover, i.e.
the input after the `toJSON` hook, with non-finite numbers turned into
`null`, `undefined`/function/symbol array elements turned into `null`, and
object entries with such values omitted.  `none` means the whole value is
omitted. -/
def jsonTransform : JsValue → Option JsValue
  | .str s => some (.str s)
  | .num n => some (.num n)
  | .nonfinite => some .nullV
  | .boolV b => some (.boolV b)
  | .nullV => some .nullV
  | .undef => none
  | .funcV => none
  | .symV => none
  | .arr items => some (.arr (jsonTransformItems items))
  | .obj fields => some (.obj (jsonTransformFields fields))
  | .toJsonVal inner => jsonTransform inner
  | .promiseOk _ => none
  | .promiseErr _ => none
  | .readableV _ _ _ _ _ _ => none

def jsonTransformItems : List JsValue → List JsValue
  | [] => []
  | it :: rest => ((jsonTransform it).getD .nullV) :: jsonTransformItems rest

def jsonTransformFields : List (String × JsValue) → List (String × JsValue)
  | [] => []
  | (k, v) :: rest =>
      match jsonTransform v with
      | some tv => (k, tv) :: jsonTransformFields rest
      | none => jsonTransformFields rest

end

/-- Whitespace skipping of a standard JSON parser. -/
def skipWs : List Char → List Char
  | c :: rest => if c = ' ' || c = '\n' || c = '\t' || c = '\r' then skipWs rest else c :: rest
  | [] => []

def parseHexDigit (c : Char) : Option Nat :=
  if '0' ≤ c ∧ c ≤ '9' then some (c.toNat - 48)
  else if 'a' ≤ c ∧ c ≤ 'f' then some (c.toNat - 87)
  else if 'A' ≤ c ∧ c ≤ 'F' then some (c.toNat - 55)
  else none

/-- JSON string-body parsing (after the opening quote). -/
def parseStringBody : Nat → List Char → Option (String × List Char)
  | 0, _ => none
  | _, [] => none
  | fuel + 1, c :: rest =>
      if c = '"' then some ("", rest)
      else if c = '\\' then
        match rest with
        | [] => none
        | e :: rest =>
            let dec : Option (Char × List Char) :=
              if e = '"' then some ('"', rest)
              else if e = '\\' then some ('\\', rest)
              else if e = '/' then some ('/', rest)
              else if e = 'n' then some ('\n', rest)
              else if e = 'r' then some ('\r', rest)
              else if e = 't' then some ('\t', rest)
              else if e = 'b' then some ('\x08', rest)
              else if e = 'f' then some ('\x0c', rest)
              else if e = 'u' then
                match rest with
                | h1 :: h2 :: h3 :: h4 :: rest =>
                    match parseHexDigit h1, parseHexDigit h2, parseHexDigit h3, parseHexDigit h4 with
                    | some a, some b, some c, some d =>
                        some (Char.ofNat (a * 4096 + b * 256 + c * 16 + d), rest)
                    | _, _, _, _ => none
                | _ => none
              else none
            match dec with
            | some (ch, rest) =>
                match parseStringBody fuel rest with
                | some (s, rest) => some (String.singleton ch ++ s, rest)
                | none => none
            | none => none
      else
        match parseStringBody fuel rest with
        | some (s, rest) => some (String.singleton c ++ s, rest)
        | none => none

def parseDigits : List Char → Nat → List Char → Nat × List Char
  | [], acc, _ => (acc, [])
  | c :: rest, acc, orig =>
      if '0' ≤ c ∧ c ≤ '9' then parseDigits rest (acc * 10 + (c.toNat - 48)) orig
      else (acc, c :: rest)

mutual

/-- Modelled from the spec: a standard JSON parser (integer-number fragment)
over the modelled value type, used to state the decode side of the
round-trip property. -/
def parseJsonVal : Nat → List Char → Option (JsValue × List Char)
  | 0, _ => none
  | fuel + 1, input =>
      match skipWs input with
      | [] => none
      | c :: rest =>
          if c = 'n' then
            match rest with
            | 'u' :: 'l' :: 'l' :: rest => some (.nullV, rest)
            | _ => none
          else if c = 't' then
            match rest with
            | 'r' :: 'u' :: 'e' :: rest => some (.boolV true, rest)
            | _ => none
          else if c = 'f' then
            match rest with
            | 'a' :: 'l' :: 's' :: 'e' :: rest => some (.boolV false, rest)
            | _ => none
          else if c = '"' then
            match parseStringBody fuel rest with
            | some (s, rest) => some (.str s, rest)
            | none => none
          else if c = '[' then
            match skipWs rest with
            | ']' :: rest => some (.arr [], rest)
            | rest =>
                match parseJsonItems fuel rest with
                | some (items, rest) =>
                    match skipWs rest with
                    | ']' :: rest => some (.arr items, rest)
                    | _ => none
                | none => none
          else if c = '\x7b' then
            match skipWs rest with
            | '\x7d' :: rest => some (.obj [], rest)
            | rest =>
                match parseJsonMembers fuel rest with
                | some (fields, rest) =>
                    match skipWs rest with
                    | '\x7d' :: rest => some (.obj fields, rest)
                    | _ => none
                | none => none
          else if c = '-' then
            match rest with
            | d :: _ =>
                if '0' ≤ d ∧ d ≤ '9' then
                  let (n, rest) := parseDigits rest 0 rest
                  some (.num (-(n : Int)), rest)
                else none
            | [] => none
          else if '0' ≤ c ∧ c ≤ '9' then
            let (n, rest) := parseDigits (c :: rest) 0 (c :: rest)
            some (.num (n : Int), rest)
          else none

def parseJsonItems : Nat → List Char → Option (List JsValue × List Char)
  | 0, _ => none
  | fuel + 1, input =>
      match parseJsonVal fuel input with
      | some (v, rest) =>
          match skipWs rest with
          | ',' :: rest =>
              match parseJsonItems fuel rest with
              | some (items, rest) => some (v :: items, rest)
              | none => none
          | rest => some ([v], rest)
      | none => none

def parseJsonMembers : Nat → List Char → Option (List (String × JsValue) × List Char)
  | 0, _ => none
  | fuel + 1, input =>
      match skipWs input with
      | '"' :: rest =>
          match parseStringBody fuel rest with
          | some (k, rest) =>
              match skipWs rest with
              | ':' :: rest =>
                  match parseJsonVal fuel rest with
                  | some (v, rest) =>
                      match skipWs rest with
                      | ',' :: rest =>
                          match parseJsonMembers fuel rest with
                          | some (fields, rest) => some ((k, v) :: fields, rest)
                          | none => none
                      | rest => some ([(k, v)], rest)
                  | none => none
              | _ => none
          | none => none
      | _ => none

end

/-- Modelled from the spec: parse a complete JSON text with a standard
parser, requiring the whole input to be consumed (up to trailing
whitespace). -/
def parseJson (text : String) : Option JsValue :=
  match parseJsonVal (text.length + 1) text.data with
  | some (v, rest) => if skipWs rest = [] then some v else none
  | none => none

namespace HtmlPrinter

/-!
`createHtmlCompressedDataPrinter` (source lines 3-49).  The staging `buffer`
holds at most `maxChunkSize` bytes (its written prefix `bufferSize` is the
model's list length).  `deflateRawSync` followed by base64 is an invertible
coding, so an emitted script tag is modelled by the raw payload bytes that
raw-inflating its base64 text recovers; the trailing `onFinish` tag carries
no payload and is the `finishTag` item.
-/

inductive Emit where
  | dataTag : List Nat → Emit
  | finishTag : Emit
  deriving DecidableEq, Repr

/-- `flushBuffer` (source lines 16-24): emit the staged bytes as one script
tag payload and reset the staging size. -/
def flushBuffer (buffer : List Nat) : Emit × List Nat :=
  (.dataTag buffer, [])

/-- The staging buffer: the written prefix of the fixed
`Uint8Array(maxChunkSize)` allocation, which by construction never exceeds
the allocation (the subtype invariant mirrors the physical capacity that
`appendBuffer`'s `buffer.set` relies on). -/
def Staging (maxChunkSize : Nat) := { l : List Nat // l.length < maxChunkSize }

/-- The `while` loop of the `push` generator (source lines 30-37): while the
staged bytes plus the incoming chunk reach `maxChunkSize`, fill the buffer up
to exactly `maxChunkSize` bytes, flush it, and continue with the rest of the
chunk; finally stage the remainder (`appendBuffer`). -/
def pushChunk (maxChunkSize : Nat) (hpos : 0 < maxChunkSize)
    (buffer : Staging maxChunkSize) (chunk : List Nat) :
    List Emit × Staging maxChunkSize :=
  if h : maxChunkSize ≤ buffer.val.length + chunk.length then
    let used := maxChunkSize - buffer.val.length
    let flushed := flushBuffer (buffer.val ++ chunk.take used)
    let rest := pushChunk maxChunkSize hpos ⟨flushed.2, by
      simp only [flushed, flushBuffer, List.length_nil]
      exact hpos⟩ (chunk.drop used)
    (flushed.1 :: rest.1, rest.2)
  else
    ([], ⟨buffer.val ++ chunk, by
      have hb := buffer.2
      simp only [List.length_append]
      omega⟩)
termination_by chunk.length
decreasing_by
  have hb := buffer.2
  simp only [List.length_drop]
  omega

/-- The `finish` generator (source lines 41-47): flush the staged bytes when
any are present, then always emit the trailing `onFinish` script tag. -/
def finish (buffer : List Nat) : List Emit :=
  (if buffer.length > 0 then [(flushBuffer buffer).1] else []) ++ [.finishTag]

/-- Invoke the `push` generator once per chunk, collecting the yielded
script tags in order and threading the staging buffer. -/
def runPush (maxChunkSize : Nat) (hpos : 0 < maxChunkSize) :
    List (List Nat) → List Emit × Staging maxChunkSize →
      List Emit × Staging maxChunkSize
  | [], acc => acc
  | c :: t, acc =>
      let pr := pushChunk maxChunkSize hpos acc.2 c
      runPush maxChunkSize hpos t (acc.1 ++ pr.1, pr.2)

/-- Feed a sequence of chunks to the `push` generator and then call
`finish`, collecting every emitted script tag in order. -/
def runPrinter (maxChunkSize : Nat) (hpos : 0 < maxChunkSize)
    (chunks : List (List Nat)) : List Emit :=
  let run := runPush maxChunkSize hpos chunks ([], ⟨[], hpos⟩)
  run.1 ++ finish run.2.val

/-- The raw payloads of the emitted script tags, in emission order. -/
def payloads : List Emit → List (List Nat)
  | [] => []
  | .dataTag p :: rest => p :: payloads rest
  | .finishTag :: rest => payloads rest

end HtmlPrinter

/-- A state whose cycle-guard set already holds `{"a":1}`, as it would while
that object's frame is on the active traversal path. -/
def c3WitnessState : State :=
  { depth := 1, error := none, processing := true, ended := false,
    readSize := 10, bufCap := 20, bufContent := [], stack := [],
    visited := [.obj [("a", .num 1)]], pulled := [], errors := [] }

/-- A suspended string-mode producer frame whose previous read attempt
yielded no unit (`firstRead` re-set), as `c4_later_empty_read_pops_counterexample`
reaches after its first pull. -/
def c4WitnessState : State :=
  { depth := 0, error := none, processing := true, ended := false,
    readSize := 100, bufCap := 200, bufContent := [97], stack := [.readF false [none] 0 true false],
    visited := [], pulled := [], errors := [] }

/-- A state whose top frame is an object frame past its first entry, at
nesting depth 1. -/
def c9WitnessState : State :=
  { depth := 1, error := none, processing := true, ended := false,
    readSize := 100, bufCap := 200, bufContent := [], 
    stack := [.objF [("a", .num 1), ("b", .num 2)] ["a", "b"] 1 false],
    visited := [.obj [("a", .num 1), ("b", .num 2)]], pulled := [], errors := [] }

/-- C1: the claim — for every acyclic finite input, parsing the concatenation
of the encoder's emitted chunks with a standard JSON parser yields the
filtered/transformed input — FAILS on the code.  For the input
`[1,"XXXXXXXX"]` driven by consumer pulls of 4 bytes, the encoder completes
without error, yet the concatenation of its chunks is `[1,"XXXXXX"]`: the
split guard in `push` caps the string at `_bufferOffset + _readSize`
characters but writes at byte offset `_bufferOffset` into the
`2 * _readSize`-byte buffer, so `Buffer.write` silently drops two bytes.
Parsing the actual output yields a value different from the
filtered/transformed input. -/
theorem c1_roundtrip_fails_on_buffer_truncation :
    (driveEvents { replacer := none, space := none } 1000
        [.pull 4, .pull 4, .pull 4, .pull 4]
        (initState (.arr [.num 1, .str "XXXXXXXX"]))).ended = true ∧
    (driveEvents { replacer := none, space := none } 1000
        [.pull 4, .pull 4, .pull 4, .pull 4]
        (initState (.arr [.num 1, .str "XXXXXXXX"]))).error = none ∧
    (driveEvents { replacer := none, space := none } 1000
        [.pull 4, .pull 4, .pull 4, .pull 4]
        (initState (.arr [.num 1, .str "XXXXXXXX"]))).pulled.flatten =
      strBytes "[1,\"XXXXXX\"]" ∧
    parseJson "[1,\"XXXXXX\"]" = some (.arr [.num 1, .str "XXXXXX"]) ∧
    jsonTransform (.arr [.num 1, .str "XXXXXXXX"]) =
      some (.arr [.num 1, .str "XXXXXXXX"]) ∧
    (JsValue.arr [.num 1, .str "XXXXXX"]) ≠ .arr [.num 1, .str "XXXXXXXX"] := by
  refine ⟨rfl, rfl, by decide, rfl, rfl, by simp⟩

/-- C2: the claim — pulled chunks never exceed the requested size and their
concatenation equals the complete encoded output — FAILS on the code in its
second half.  On the run of `c1_roundtrip_fails_on_buffer_truncation` every
chunk respects the 4-byte pull size, but the concatenation differs from the
complete encoded output `[1,"XXXXXXXX"]` (the reference serialization):
two bytes are silently lost to `Buffer.write` truncation when a write
overruns the physical `2 * _readSize` buffer. -/
theorem c2_pull_concatenation_loses_bytes :
    (∀ chunk ∈ (driveEvents { replacer := none, space := none } 1000
        [.pull 4, .pull 4, .pull 4, .pull 4]
        (initState (.arr [.num 1, .str "XXXXXXXX"]))).pulled, chunk.length ≤ 4) ∧
    specStringify (.arr [.num 1, .str "XXXXXXXX"]) = some "[1,\"XXXXXXXX\"]" ∧
    (driveEvents { replacer := none, space := none } 1000
        [.pull 4, .pull 4, .pull 4, .pull 4]
        (initState (.arr [.num 1, .str "XXXXXXXX"]))).pulled.flatten =
      strBytes "[1,\"XXXXXX\"]" ∧
    (driveEvents { replacer := none, space := none } 1000
        [.pull 4, .pull 4, .pull 4, .pull 4]
        (initState (.arr [.num 1, .str "XXXXXXXX"]))).pulled.flatten ≠
      strBytes "[1,\"XXXXXXXX\"]" := by
  refine ⟨by decide, rfl, by decide, by decide⟩

theorem push_visited (s : State) (d : String) : (push s d).visited = s.visited := by
  unfold push pushStack
  dsimp only
  split <;> split <;> rfl

theorem push_depth (s : State) (d : String) : (push s d).depth = s.depth := by
  unfold push pushStack
  dsimp only
  split <;> split <;> rfl

theorem processObjectEntry_visited (cfg : Config) (s : State) (k : String) :
    (processObjectEntry cfg s k).visited = s.visited := by
  unfold processObjectEntry
  dsimp only
  split <;> split <;> split <;> simp [push_visited]

theorem processArrayItem_visited (cfg : Config) (s : State) (k : String) :
    (processArrayItem cfg s k).visited = s.visited := by
  unfold processArrayItem
  dsimp only
  split <;> split <;> simp [push_visited]

theorem runCallback_visited (cfg : Config) (s : State) (k : String) (cb : Callback) :
    (runCallback cfg s k cb).visited = s.visited := by
  cases cb <;> simp [runCallback, processObjectEntry_visited, processArrayItem_visited]

/-- C3, amended: the identity cycle guard.  (1) Processing a
keyed-collection or an ordered-sequence value whose cycle-guard entry is
present aborts with the CircularStructure error, regardless of the
surrounding state.  (2) Popping such a value's frame removes it from the
guard set (and restores the depth).  (3) Consequently a *non-empty*
composite reachable twice through non-overlapping branches — a DAG, not a
cycle — is no error: the concrete run on `{"x":shared,"y":shared}` with
`shared = {"a":1}` completes without error and emits
`{"x":{"a":1},"y":{"a":1}}`.  (4) An *empty* keyed-collection, however, is
inserted into the guard by the empty fast path without any frame being
pushed, so its entry is never removed — which is why the claim's unrestricted
DAG statement fails (see `c3_shared_empty_dag_aborts_counterexample`). -/
theorem c3_cycle_guard (cfg : Config) (s : State) (key : String) (cb : Callback)
    (hrep : cfg.replacer = none) :
    (∀ fields, s.visited.contains (JsValue.obj fields) = true →
        processValue cfg s key (.obj fields) cb =
          abort (runCallback cfg s key cb) "Converting circular structure to JSON") ∧
    (∀ items, s.visited.contains (JsValue.arr items) = true →
        processValue cfg s key (.arr items) cb =
          abort (runCallback cfg s key cb) "Converting circular structure to JSON") ∧
    (∀ fields keys index fe rest, s.stack = .objF fields keys index fe :: rest →
        popStack s = { s with stack := rest,
                              visited := s.visited.erase (.obj fields),
                              depth := s.depth - 1 }) ∧
    (∀ items index rest, s.stack = .arrF items index :: rest →
        popStack s = { s with stack := rest,
                              visited := s.visited.erase (.arr items),
                              depth := s.depth - 1 }) ∧
    (s.visited.contains (JsValue.obj []) = false →
        processValue cfg s key (.obj []) cb =
          push { runCallback cfg s key cb with
                 visited := .obj [] :: (runCallback cfg s key cb).visited } "\x7b\x7d") ∧
    ((driveEvents { replacer := none, space := none } 1000 [.pull 100]
        (initState (.obj [("x", .obj [("a", .num 1)]), ("y", .obj [("a", .num 1)])]))).ended = true ∧
     (driveEvents { replacer := none, space := none } 1000 [.pull 100]
        (initState (.obj [("x", .obj [("a", .num 1)]), ("y", .obj [("a", .num 1)])]))).error = none ∧
     (driveEvents { replacer := none, space := none } 1000 [.pull 100]
        (initState (.obj [("x", .obj [("a", .num 1)]), ("y", .obj [("a", .num 1)])]))).pulled.flatten =
       strBytes "\x7b\"x\":\x7b\"a\":1\x7d,\"y\":\x7b\"a\":1\x7d\x7d") := by
  refine ⟨?_, ?_, ?_, ?_, ?_, rfl, rfl, by decide⟩
  · intro fields hmem
    simp only [processValue, effectiveValue, hrep, getType]
    simp [runCallback_visited, hmem]
  · intro items hmem
    simp only [processValue, effectiveValue, hrep, getType]
    simp [runCallback_visited, hmem]
  · intro fields keys index fe rest hstack
    simp [popStack, hstack]
  · intro items index rest hstack
    simp [popStack, hstack]
  · intro hvis
    simp only [processValue, effectiveValue, hrep, getType]
    simp [runCallback_visited, hvis, objFields]


theorem c3_cycle_guard_witness :
    processValue { replacer := none, space := none } c3WitnessState
        "k" (.obj [("a", .num 1)]) .noopCb =
      abort (runCallback { replacer := none, space := none } c3WitnessState "k" .noopCb)
        "Converting circular structure to JSON" :=
  (c3_cycle_guard { replacer := none, space := none } c3WitnessState "k" .noopCb rfl).1
    [("a", .num 1)] (by rfl)

/-- C3, counterexample to the claim as stated.  A single *empty* object `s`
shared under two keys — `{"x":s,"y":s}`, a DAG, not a cycle, with nothing on
the active traversal path when `"y"` is reached (the structural value model
renders identity sharing as the same term occurring twice) — makes the
encoder abort with the CircularStructure error: the empty fast path inserted
`s` into the cycle guard without pushing any frame, so the entry was never
removed.  The same happens for a shared empty ordered-sequence. -/
theorem c3_shared_empty_dag_aborts_counterexample :
    (driveEvents { replacer := none, space := none } 1000 [.pull 100]
        (initState (.obj [("x", .obj []), ("y", .obj [])]))).error =
      some "Converting circular structure to JSON" ∧
    (driveEvents { replacer := none, space := none } 1000 [.pull 100]
        (initState (.arr [.arr [], .arr []]))).error =
      some "Converting circular structure to JSON" :=
  ⟨rfl, rfl⟩

/-- C4, counterexample.  The claim says a producer frame is popped only when
the *very first* read attempt yields no unit, and that *any later* read
attempt yielding no unit marks the frame awaiting without popping.  Concrete
refutation: a string-mode stream whose reads yield a unit, then nothing, then
nothing.  After the first pull the frame has performed two read attempts (one
unit, then none) and is suspended awaiting with its `firstRead` flag re-set;
the wake-up performs a *third* read attempt, which yields no unit — a later
attempt — yet the frame is popped (the stack empties and the stream ends)
instead of being marked awaiting. -/
theorem c4_later_empty_read_pops_counterexample :
    (driveEvents { replacer := none, space := none } 1000 [.pull 100]
        (initState (.readableV false false false true 1 [some (.str "a"), none, none]))).stack =
      [.readF false [none] 0 true true] ∧
    (driveEvents { replacer := none, space := none } 1000 [.pull 100, .wake]
        (initState (.readableV false false false true 1 [some (.str "a"), none, none]))).stack = [] ∧
    (driveEvents { replacer := none, space := none } 1000 [.pull 100, .wake]
        (initState (.readableV false false false true 1 [some (.str "a"), none, none]))).ended = true ∧
    (driveEvents { replacer := none, space := none } 1000 [.pull 100, .wake]
        (initState (.readableV false false false true 1 [some (.str "a"), none, none]))).error = none := by
  exact ⟨rfl, rfl, rfl, rfl⟩

/-- C4, amended.  For a producer frame, a read attempt that yields no unit
pops the frame whenever the frame's `firstRead` flag is set — which holds on
the very first attempt and again after any previous attempt that yielded no
unit; a read attempt that yields no unit while the flag is clear (the
previous attempt yielded a unit) re-sets the flag and marks the frame
awaiting, returning control to the driver without popping; a read attempt
that yields a unit clears the flag and hands the unit to the frame's unit
handler. -/
theorem c4_reader_empty_read_behaviour (fn : Config → State → JsValue → State)
    (cfg : Config) (s : State) (om : Bool) (script : List (Option JsValue))
    (index : Nat) (fr aw : Bool) (rest : List Frame)
    (hstack : s.stack = .readF om script index fr aw :: rest) :
    ((scriptRead script).1 = none → fr = true →
        createStreamReader fn cfg s = popStack s) ∧
    ((scriptRead script).1 = none → fr = false →
        createStreamReader fn cfg s =
          { s with stack := .readF om (scriptRead script).2 index true true :: rest }) ∧
    (∀ d scr, scriptRead script = (some d, scr) →
        createStreamReader fn cfg s =
          fn cfg { s with stack := .readF om scr index false aw :: rest } d) := by
  refine ⟨?_, ?_, ?_⟩
  · intro hnone hfr
    subst hfr
    cases script with
    | nil => simp [createStreamReader, hstack, scriptRead]
    | cons h t =>
      cases h with
      | none => simp [createStreamReader, hstack, scriptRead]
      | some d => simp [scriptRead] at hnone
  · intro hnone hfr
    subst hfr
    cases script with
    | nil => simp [createStreamReader, hstack, scriptRead]
    | cons h t =>
      cases h with
      | none => simp [createStreamReader, hstack, scriptRead]
      | some d => simp [scriptRead] at hnone
  · intro d scr hread
    cases script with
    | nil => simp [scriptRead] at hread
    | cons h t =>
      cases h with
      | none => simp [scriptRead] at hread
      | some d2 =>
        simp only [scriptRead, Prod.mk.injEq, Option.some.injEq] at hread
        obtain ⟨h1, h2⟩ := hread
        subst h1; subst h2
        simp [createStreamReader, hstack, scriptRead]


theorem c4_reader_empty_read_behaviour_witness :
    createStreamReader processReadableStringFn { replacer := none, space := none }
        c4WitnessState = popStack c4WitnessState :=
  (c4_reader_empty_read_behaviour processReadableStringFn { replacer := none, space := none }
    c4WitnessState false [none] 0 true false [] rfl).1 rfl rfl

/-- C5: deferred-value transparency.  Processing a thenable that resolves to
`v` under key `k` pushes only the awaiting placeholder, and the very next
scheduler step (the settlement continuation: pop the placeholder, re-process
the resolved value under the captured key and callback) lands in *exactly*
the state reached by processing `v` directly under `k` — hence every
subsequent run, its emitted bytes included, coincides (the one-step shift of
`stepRun`).  A thenable that rejects aborts the whole encoder with the
rejection error. -/
theorem c5_deferred_transparency (cfg : Config) (s : State) (key : String)
    (v : JsValue) (cb : Callback) (e : String) (n : Nat)
    (hrep : cfg.replacer = none) (hend : s.ended = false) :
    stepRun cfg (n + 1) (processValue cfg s key (.promiseOk v) cb) =
      stepRun cfg n (processValue cfg s key v cb) ∧
    step cfg (processValue cfg s key (.promiseErr e) cb) =
      abort (processValue cfg s key (.promiseErr e) cb) e ∧
    (step cfg (processValue cfg s key (.promiseErr e) cb)).error = some e := by
  have h1 : processValue cfg s key (.promiseOk v) cb =
      pushStack s (.promiseF key (.ok v) cb) := by
    simp [processValue, effectiveValue, hrep, getType, promiseOutcome]
  have h2 : processValue cfg s key (.promiseErr e) cb =
      pushStack s (.promiseF key (.error e) cb) := by
    simp [processValue, effectiveValue, hrep, getType, promiseOutcome]
  have he1 : (pushStack s (.promiseF key (.ok v) cb)).ended = false := hend
  have he2 : (pushStack s (.promiseF key (.error e) cb)).ended = false := hend
  have hstep : step cfg (processValue cfg s key (.promiseOk v) cb) =
      processValue cfg s key v cb := by
    rw [h1]
    unfold step
    rw [he1]
    rfl
  have hstep2 : step cfg (processValue cfg s key (.promiseErr e) cb) =
      abort (processValue cfg s key (.promiseErr e) cb) e := by
    rw [h2]
    unfold step
    rw [he2]
    rfl
  refine ⟨?_, hstep2, by rw [hstep2]; rfl⟩
  have hit := Function.iterate_succ_apply (step cfg) n (processValue cfg s key (.promiseOk v) cb)
  unfold stepRun
  rw [hit, hstep]

theorem c5_deferred_transparency_witness :
    stepRun { replacer := none, space := none } 4
        (processValue { replacer := none, space := none } (initState .nullV) "x"
          (.promiseOk (.obj [("a", .num 1)])) .noopCb) =
      stepRun { replacer := none, space := none } 3
        (processValue { replacer := none, space := none } (initState .nullV) "x"
          (.obj [("a", .num 1)]) .noopCb) ∧
    step { replacer := none, space := none }
        (processValue { replacer := none, space := none } (initState .nullV) "x"
          (.promiseErr "boom") .noopCb) =
      abort (processValue { replacer := none, space := none } (initState .nullV) "x"
          (.promiseErr "boom") .noopCb) "boom" ∧
    (step { replacer := none, space := none }
        (processValue { replacer := none, space := none } (initState .nullV) "x"
          (.promiseErr "boom") .noopCb)).error = some "boom" :=
  c5_deferred_transparency { replacer := none, space := none } (initState .nullV)
    "x" (.obj [("a", .num 1)]) .noopCb "boom" 3 rfl rfl

theorem undef_beq_undef : (JsValue.undef == JsValue.undef) = true := rfl

theorem nonfinite_beq_undef : (JsValue.nonfinite == JsValue.undef) = false := rfl

/-- C6: omission and null coercion.  When the value pipeline (the `toJSON`
hook, the replacer, and the function/symbol coercion) yields `undefined` for
a keyed-collection value position, the entry is skipped entirely — no key, no
value, no separator, the state is untouched.  The same pipeline result in an
ordered-sequence element position serializes as the `null` literal (after the
item callback), and a non-finite number serializes as the `null` literal in
either position. -/
theorem c6_omitted_and_nonfinite_values (cfg : Config) (s : State) (key : String)
    (v w : JsValue)
    (hund : effectiveValue cfg key v = .undef)
    (hnf : effectiveValue cfg key w = .nonfinite) :
    processValue cfg s key v .objEntry = s ∧
    processValue cfg s key v .arrItem = push (processArrayItem cfg s key) "null" ∧
    (∀ cb, processValue cfg s key w cb = push (runCallback cfg s key cb) "null") := by
  refine ⟨?_, ?_, ?_⟩
  · simp [processValue, hund, getType, undef_beq_undef]
  · simp [processValue, hund, getType, primitiveToString, runCallback]
  · intro cb
    simp [processValue, hnf, getType, primitiveToString, nonfinite_beq_undef]

theorem c6_omitted_and_nonfinite_values_witness :
    processValue { replacer := none, space := none } (initState .nullV) "k"
        .funcV .objEntry = initState .nullV ∧
    processValue { replacer := none, space := none } (initState .nullV) "k"
        .funcV .arrItem =
      push (processArrayItem { replacer := none, space := none } (initState .nullV) "k") "null" ∧
    (∀ cb, processValue { replacer := none, space := none } (initState .nullV) "k"
        .nonfinite cb =
      push (runCallback { replacer := none, space := none } (initState .nullV) "k" cb) "null") :=
  c6_omitted_and_nonfinite_values { replacer := none, space := none }
    (initState .nullV) "k" .funcV .nonfinite rfl rfl

/-- C7: producer attachment guards.  Attaching a readable stream (either
mode) that has already ended aborts with the StreamAlreadyEnded error;
attaching one in flowing mode aborts with the StreamUncontrolledMode error.
In both cases the result is exactly the abort of the post-callback state:
its stack is empty — no frame for the source was pushed — the stream has
ended with the error set, and no byte of the source was handed to the
consumer (`pulled` is untouched by `abort`). -/
theorem c7_stream_attachment_guards (cfg : Config) (s : State) (key : String)
    (cb : Callback) (om flowing rf : Bool) (rl : Nat)
    (script : List (Option JsValue)) (hrep : cfg.replacer = none) :
    processValue cfg s key (.readableV om true flowing rf rl script) cb =
      abort (runCallback cfg s key cb)
        "Readable Stream has ended before it was serialized. All stream data have been lost" ∧
    processValue cfg s key (.readableV om false true rf rl script) cb =
      abort (runCallback cfg s key cb)
        "Readable Stream is in flowing mode, data may have been lost. Trying to pause stream." ∧
    (∀ s2 e, (abort s2 e).stack = [] ∧ (abort s2 e).error = some e ∧
      (abort s2 e).ended = true ∧ (abort s2 e).pulled = s2.pulled) := by
  refine ⟨?_, ?_, fun s2 e => ⟨rfl, rfl, rfl, rfl⟩⟩
  · cases om <;> simp [processValue, effectiveValue, hrep, getType]
  · cases om <;> simp [processValue, effectiveValue, hrep, getType]

theorem c7_stream_attachment_guards_witness :
    processValue { replacer := none, space := none } (initState .nullV) "s"
        (.readableV false true false true 1 [some (.str "a")]) .noopCb =
      abort (runCallback { replacer := none, space := none } (initState .nullV) "s" .noopCb)
        "Readable Stream has ended before it was serialized. All stream data have been lost" ∧
    processValue { replacer := none, space := none } (initState .nullV) "s"
        (.readableV false false true true 1 [some (.str "a")]) .noopCb =
      abort (runCallback { replacer := none, space := none } (initState .nullV) "s" .noopCb)
        "Readable Stream is in flowing mode, data may have been lost. Trying to pause stream." ∧
    (∀ s2 e, (abort s2 e).stack = [] ∧ (abort s2 e).error = some e ∧
      (abort s2 e).ended = true ∧ (abort s2 e).pulled = s2.pulled) :=
  c7_stream_attachment_guards { replacer := none, space := none } (initState .nullV)
    "s" .noopCb false false true 1 [some (.str "a")] rfl

/-- C8: the terminal error state.  Once `abort` sets the error slot, the
instance is permanently done: every later driver run (`processStack`), every
consumer pull (`_read`), every scheduler step and every external event leaves
the state untouched — no frame is ever processed again.  The abort itself
emits the error exactly once on the error channel (`errors` grows by exactly
`[e]`), ends the stream, discards the buffered-but-unflushed bytes
(`bufContent` is dropped) and hands nothing more to the consumer (`pulled`
is unchanged). -/
theorem c8_terminal_error_state (cfg : Config) (fuel n size : Nat) (s : State)
    (e : String) (evs : List Event) :
    processStack cfg fuel (abort s e) = abort s e ∧
    readPull cfg fuel size (abort s e) = abort s e ∧
    stepRun cfg n (abort s e) = abort s e ∧
    driveEvents cfg fuel evs (abort s e) = abort s e ∧
    (abort s e).error = some e ∧
    (abort s e).ended = true ∧
    (abort s e).errors = s.errors ++ [e] ∧
    (abort s e).pulled = s.pulled ∧
    (abort s e).bufContent = [] := by
  have happ : ∀ ev, applyEvent cfg fuel ev (abort s e) = abort s e := by
    intro ev; cases ev <;> rfl
  have hdrive : ∀ evs2, driveEvents cfg fuel evs2 (abort s e) = abort s e := by
    intro evs2
    induction evs2 with
    | nil => rfl
    | cons ev t ih =>
        show List.foldl (fun s2 ev2 => applyEvent cfg fuel ev2 s2) (abort s e) (ev :: t) = abort s e
        rw [List.foldl_cons, happ ev]
        exact ih
  refine ⟨rfl, rfl, ?_, hdrive evs, rfl, rfl, rfl, rfl, rfl⟩
  exact Function.iterate_fixed rfl n

/-- C9: formatting of non-empty collections.  With an indentation unit `sp`
active: a non-first object entry is emitted as the comma followed by a
newline, `sp` repeated to the current depth, the quoted key and `": "`; the
first entry omits the comma (only clearing the `firstEntry` flag); array
items behave likewise with a comma exactly for indices other than `"0"`;
closing a non-empty object emits a newline plus `sp` repeated to depth − 1
before the `"}"` literal frame below is processed, and the closer literal
pushed for a non-empty array is a newline plus `sp` repeated to the depth at
creation time (one less than its items' depth) followed by `"]"`.  With
indentation disabled, separators are bare commas and keys are followed by a
bare colon. -/
theorem c9_indentation_and_separators (cfg cfgc : Config) (sp : String)
    (s : State) (key : String) (hsp : cfg.space = some sp)
    (hc : cfgc.space = none) :
    (∀ fields keys i rest, s.stack = .objF fields keys i false :: rest →
       processObjectEntry cfg s key =
         push (push s ",") ("\n" ++ strRepeat sp s.depth ++ quoteString key ++ ": ")) ∧
    (∀ fields keys i rest, s.stack = .objF fields keys i true :: rest →
       processObjectEntry cfg s key =
         push { s with stack := .objF fields keys i false :: rest }
           ("\n" ++ strRepeat sp s.depth ++ quoteString key ++ ": ")) ∧
    (key ≠ "0" → processArrayItem cfg s key = push (push s ",") ("\n" ++ strRepeat sp s.depth)) ∧
    (processArrayItem cfg s "0" = push s ("\n" ++ strRepeat sp s.depth)) ∧
    (∀ fields keys rest, s.stack = .objF fields keys keys.length false :: rest →
       processObject cfg s = popStack (push s ("\n" ++ strRepeat sp (s.depth - 1)))) ∧
    (∀ v vs, (s.visited.contains (JsValue.arr (v :: vs))) = false → cfg.replacer = none →
       ((processValue cfg s key (.arr (v :: vs)) .noopCb).stack.get? 1) =
         some (.lit ("\n" ++ strRepeat sp s.depth ++ "]"))) ∧
    (∀ fields keys i rest, s.stack = .objF fields keys i false :: rest →
       processObjectEntry cfgc s key = push (push s ",") (quoteString key ++ ":")) ∧
    (key ≠ "0" → processArrayItem cfgc s key = push s ",") ∧
    (processArrayItem cfgc s "0" = s) := by
  refine ⟨?_, ?_, ?_, ?_, ?_, ?_, ?_, ?_, ?_⟩
  · intro fields keys i rest hstack
    simp [processObjectEntry, hstack, hsp, push_depth]
  · intro fields keys i rest hstack
    simp [processObjectEntry, hstack, hsp, push_depth]
  · intro hkey
    simp [processArrayItem, hkey, hsp, push_depth]
  · simp [processArrayItem, hsp]
  · intro fields keys rest hstack
    simp [processObject, hstack, hsp]
  · intro v vs hvis hrep
    simp [processValue, effectiveValue, hrep, getType, runCallback, hvis, hsp, pushStack, push_depth]
  · intro fields keys i rest hstack
    simp [processObjectEntry, hstack, hc]
  · intro hkey
    simp [processArrayItem, hkey, hc]
  · simp [processArrayItem, hc]


theorem c9_indentation_and_separators_witness :
    processObjectEntry { replacer := none, space := some "  " } c9WitnessState "b" =
      push (push c9WitnessState ",")
        ("\n" ++ strRepeat "  " c9WitnessState.depth ++ quoteString "b" ++ ": ") ∧
    processArrayItem { replacer := none, space := none } c9WitnessState "0" = c9WitnessState :=
  ⟨(c9_indentation_and_separators { replacer := none, space := some "  " }
      { replacer := none, space := none } "  " c9WitnessState "b" rfl rfl).1
      [("a", .num 1), ("b", .num 2)] ["a", "b"] 1 [] rfl,
   (c9_indentation_and_separators { replacer := none, space := some "  " }
      { replacer := none, space := none } "  " c9WitnessState "0" rfl rfl).2.2.2.2.2.2.2.2⟩

namespace HtmlPrinter

theorem payloads_append (a b : List Emit) :
    payloads (a ++ b) = payloads a ++ payloads b := by
  induction a with
  | nil => rfl
  | cons e t ih => cases e <;> simp [payloads, ih]

theorem pushChunk_spec (max : Nat) (hpos : 0 < max) :
    ∀ (n : Nat) (chunk : List Nat), chunk.length ≤ n → ∀ (buffer : Staging max),
      (payloads (pushChunk max hpos buffer chunk).1).flatten ++
          (pushChunk max hpos buffer chunk).2.val = buffer.val ++ chunk ∧
      (∀ p ∈ payloads (pushChunk max hpos buffer chunk).1, p.length = max) ∧
      (∀ e ∈ (pushChunk max hpos buffer chunk).1, e ≠ .finishTag) := by
  intro n
  induction n with
  | zero =>
      intro chunk hlen buffer
      have hnil : chunk = [] := List.eq_nil_of_length_eq_zero (Nat.le_zero.mp hlen)
      subst hnil
      rw [pushChunk]
      have hb := buffer.2
      rw [dif_neg (by simpa using Nat.not_le.mpr hb)]
      refine ⟨by simp [payloads], by simp [payloads], by simp⟩
  | succ m ih =>
      intro chunk hlen buffer
      rw [pushChunk]
      by_cases h : max ≤ buffer.val.length + chunk.length
      · rw [dif_pos h]
        have hb := buffer.2
        have hused : max - buffer.val.length ≤ chunk.length := by omega
        have hdlen : (chunk.drop (max - buffer.val.length)).length ≤ m := by
          simp only [List.length_drop]
          omega
        have hrec := ih (chunk.drop (max - buffer.val.length)) hdlen
          ⟨(flushBuffer (buffer.val ++ chunk.take (max - buffer.val.length))).2, by
            simp only [flushBuffer, List.length_nil]; exact hpos⟩
        obtain ⟨h1, h2, h3⟩ := hrec
        refine ⟨?_, ?_, ?_⟩
        · simp only [flushBuffer, payloads, List.flatten_cons] at h1 ⊢
          rw [List.append_assoc, h1]
          simp only [List.nil_append]
          rw [List.append_assoc, List.take_append_drop]
        · simp only [flushBuffer, payloads, List.mem_cons] at h2 ⊢
          intro p hp
          rcases hp with hp | hp
          · subst hp
            simp only [List.length_append, List.length_take]
            omega
          · exact h2 p hp
        · simp only [flushBuffer, List.mem_cons] at h3 ⊢
          intro e he
          rcases he with he | he
          · subst he; intro hcontra; exact Emit.noConfusion hcontra
          · exact h3 e he
      · rw [dif_neg h]
        refine ⟨by simp [payloads], by simp [payloads], by simp⟩

theorem runPush_spec (max : Nat) (hpos : 0 < max) :
    ∀ (chunks : List (List Nat)) (acc : List Emit × Staging max),
      (payloads (runPush max hpos chunks acc).1).flatten ++
          (runPush max hpos chunks acc).2.val =
        (payloads acc.1).flatten ++ acc.2.val ++ chunks.flatten ∧
      ((∀ p ∈ payloads acc.1, p.length = max) →
        ∀ p ∈ payloads (runPush max hpos chunks acc).1, p.length = max) ∧
      ((∀ e ∈ acc.1, e ≠ Emit.finishTag) →
        ∀ e ∈ (runPush max hpos chunks acc).1, e ≠ Emit.finishTag) := by
  intro chunks
  induction chunks with
  | nil =>
      intro acc
      exact ⟨by simp [runPush], fun h => by simpa [runPush] using h,
        fun h => by simpa [runPush] using h⟩
  | cons c t ih =>
      intro acc
      rw [runPush]
      obtain ⟨h1, h2, h3⟩ := pushChunk_spec max hpos c.length c (le_refl _) acc.2
      obtain ⟨g1, g2, g3⟩ := ih (acc.1 ++ (pushChunk max hpos acc.2 c).1,
        (pushChunk max hpos acc.2 c).2)
      refine ⟨?_, ?_, ?_⟩
      · rw [g1]
        simp only [payloads_append, List.flatten_append, List.flatten_cons]
        rw [List.append_assoc (payloads acc.1).flatten, h1]
        simp [List.append_assoc]
      · intro hacc
        refine g2 ?_
        intro p hp
        rw [payloads_append, List.mem_append] at hp
        rcases hp with hp | hp
        exacts [hacc p hp, h2 p hp]
      · intro hacc
        refine g3 ?_
        intro e he
        rw [List.mem_append] at he
        rcases he with he | he
        exacts [hacc e he, h3 e he]

end HtmlPrinter

theorem payloads_finish (buf : List Nat) :
    HtmlPrinter.payloads (HtmlPrinter.finish buf) =
      if 0 < buf.length then [buf] else [] := by
  unfold HtmlPrinter.finish HtmlPrinter.flushBuffer
  split <;> simp [HtmlPrinter.payloads, HtmlPrinter.payloads_append]

/-- C10: the HTML compressed-data printer.  For every finite sequence of
byte chunks fed to the `push` generator followed by one `finish` call, the
concatenation (in emission order) of the raw payloads of all emitted script
tags — what raw-inflating their base64 text recovers — equals the
concatenation of the input chunks; every payload except possibly the last is
exactly `maxChunkSize` bytes, every payload is non-empty and at most
`maxChunkSize` bytes (the final flush is emitted only when bytes are
staged), and the trailing `onFinish` script tag is always emitted last and
only last. -/
theorem c10_chunk_compressor_roundtrip (max : Nat) (hpos : 0 < max) (chunks : List (List Nat)) :
    (HtmlPrinter.payloads (HtmlPrinter.runPrinter max hpos chunks)).flatten = chunks.flatten ∧
    (∀ p ∈ (HtmlPrinter.payloads (HtmlPrinter.runPrinter max hpos chunks)).dropLast,
      p.length = max) ∧
    (∀ p ∈ HtmlPrinter.payloads (HtmlPrinter.runPrinter max hpos chunks),
      0 < p.length ∧ p.length ≤ max) ∧
    (HtmlPrinter.runPrinter max hpos chunks).getLast? = some .finishTag ∧
    (∀ e ∈ (HtmlPrinter.runPrinter max hpos chunks).dropLast,
      e ≠ HtmlPrinter.Emit.finishTag) := by
  obtain ⟨h1, h2, h3⟩ := HtmlPrinter.runPush_spec max hpos chunks ([], ⟨[], hpos⟩)
  have h2' := h2 (by intro p hp; simp [HtmlPrinter.payloads] at hp)
  have h3' := h3 (by intro e he; simp at he)
  simp only [HtmlPrinter.payloads, List.flatten_nil, List.nil_append] at h1
  have hrp : HtmlPrinter.runPrinter max hpos chunks =
      (HtmlPrinter.runPush max hpos chunks ([], ⟨[], hpos⟩)).1 ++
        HtmlPrinter.finish (HtmlPrinter.runPush max hpos chunks ([], ⟨[], hpos⟩)).2.val := rfl
  set r := HtmlPrinter.runPush max hpos chunks ([], ⟨[], hpos⟩) with hrdef
  have hfin : HtmlPrinter.finish r.2.val =
      (if 0 < r.2.val.length then [(HtmlPrinter.flushBuffer r.2.val).1] else []) ++
        [HtmlPrinter.Emit.finishTag] := rfl
  have hplo : HtmlPrinter.payloads (HtmlPrinter.runPrinter max hpos chunks) =
      HtmlPrinter.payloads r.1 ++ (if 0 < r.2.val.length then [r.2.val] else []) := by
    rw [hrp, HtmlPrinter.payloads_append, payloads_finish]
  by_cases hb : 0 < r.2.val.length
  · rw [hplo, if_pos hb]
    refine ⟨?_, ?_, ?_, ?_, ?_⟩
    · simp only [List.flatten_append, List.flatten_cons, List.flatten_nil, List.append_nil]
      exact h1
    · rw [List.dropLast_concat]
      intro p hp
      exact h2' p hp
    · intro p hp
      rw [List.mem_append] at hp
      rcases hp with hp | hp
      · have := h2' p hp
        omega
      · simp only [List.mem_singleton] at hp
        subst hp
        have := r.2.2
        omega
    · rw [hrp, hfin, ← List.append_assoc, List.getLast?_concat]
    · rw [hrp, hfin, ← List.append_assoc, List.dropLast_concat]
      intro e he
      rw [List.mem_append] at he
      rcases he with he | he
      · exact h3' e he
      · rw [if_pos hb] at he
        simp only [HtmlPrinter.flushBuffer, List.mem_singleton] at he
        subst he
        intro hcontra
        exact HtmlPrinter.Emit.noConfusion hcontra
  · have hnil : r.2.val = [] := List.eq_nil_of_length_eq_zero (by omega)
    rw [hplo, if_neg hb]
    refine ⟨?_, ?_, ?_, ?_, ?_⟩
    · rw [List.append_nil]
      rw [hnil, List.append_nil] at h1
      exact h1
    · rw [List.append_nil]
      intro p hp
      exact h2' p (List.Sublist.subset (List.dropLast_sublist _) hp)
    · rw [List.append_nil]
      intro p hp
      have := h2' p hp
      omega
    · rw [hrp, hfin, ← List.append_assoc, List.getLast?_concat]
    · rw [hrp, hfin, ← List.append_assoc, List.dropLast_concat]
      intro e he
      rw [List.mem_append] at he
      rcases he with he | he
      · exact h3' e he
      · rw [if_neg hb] at he
        simp at he

theorem c10_chunk_compressor_roundtrip_witness :
    (HtmlPrinter.payloads (HtmlPrinter.runPrinter 3 (Nat.succ_pos 2)
        [[1, 2], [3, 4, 5, 6, 7], [8]])).flatten = [[1, 2], [3, 4, 5, 6, 7], [8]].flatten ∧
    (∀ p ∈ (HtmlPrinter.payloads (HtmlPrinter.runPrinter 3 (Nat.succ_pos 2)
        [[1, 2], [3, 4, 5, 6, 7], [8]])).dropLast, p.length = 3) ∧
    (∀ p ∈ HtmlPrinter.payloads (HtmlPrinter.runPrinter 3 (Nat.succ_pos 2)
        [[1, 2], [3, 4, 5, 6, 7], [8]]), 0 < p.length ∧ p.length ≤ 3) ∧
    (HtmlPrinter.runPrinter 3 (Nat.succ_pos 2)
        [[1, 2], [3, 4, 5, 6, 7], [8]]).getLast? = some .finishTag ∧
    (∀ e ∈ (HtmlPrinter.runPrinter 3 (Nat.succ_pos 2)
        [[1, 2], [3, 4, 5, 6, 7], [8]]).dropLast, e ≠ HtmlPrinter.Emit.finishTag) :=
  c10_chunk_compressor_roundtrip 3 (Nat.succ_pos 2) [[1, 2], [3, 4, 5, 6, 7], [8]]
